import Mathlib

/-!
Verification of the kg-crawler crawl engine (src/src/scraper.py and its helper
modules) against its natural-language specification.

The mutable crawl state of PageScraper (link_dict, todo_links, done_links,
knowledge_base, plus a log of fetched URLs) is embedded as a structure; the
frontier-mutating methods _gather_links and _pop_item become pure state
transformers; Python expressions of the form list(set(xs) - set(ys)) are
modelled as a deduplicated filtered list (Python set iteration order is
implementation-defined, so any fixed enumeration order is a faithful model;
all properties proved below are order-insensitive).
-/

set_option maxHeartbeats 1000000
set_option maxRecDepth 10000

namespace KgCrawler

/-- Python substring test: containsSub hay needle models the expression
needle in hay on strings. -/
def containsSub (hay needle : String) : Bool :=
  hay.toList.tails.any (fun t => needle.toList.isPrefixOf t)

/-- Model of Python list(set(xs) - set(ys)): the elements of xs that are not
in ys, each listed once. -/
def setDiffList (xs ys : List String) : List String :=
  xs.dedup.filter (fun x => decide (x ∉ ys))

/-- Mutable scraping state of PageScraper: link_dict (all discovered links),
todo_links (pending), done_links (completed), a log of fetched URLs
(the requests.get calls issued by _process_page) and the knowledge-base keys
recorded by _store_object. -/
structure CrawlState where
  link_dict : List String
  todo_links : List String
  done_links : List String
  fetched : List String
  kb : List String
deriving DecidableEq, Repr

/-- Fresh scraper state: no predefined links, done links or knowledge. -/
def emptyFrontier : CrawlState := ⟨[], [], [], [], []⟩

/-- PageScraper._gather_links restricted to its effect on the crawl state,
with new_list (the links isolate_simple extracted from the soup) passed in:
if link_dict is non-empty, crawl_new = list(set(new_list) - set(link_dict)),
todo_links = list(set(crawl_new + todo_links) - set(done_links)) and
link_dict = link_dict + crawl_new; otherwise link_dict and todo_links are
both assigned new_list verbatim. -/
def gatherLinks (st : CrawlState) (newList : List String) : CrawlState :=
  if st.link_dict = [] then
    { st with link_dict := newList, todo_links := newList }
  else
    let crawlNew := setDiffList newList st.link_dict
    { st with
      todo_links := setDiffList (crawlNew ++ st.todo_links) st.done_links,
      link_dict := st.link_dict ++ crawlNew }

/-- PageScraper._pop_item restricted to its effect on the crawl state:
done_links.append(url), todo_links = list(set(todo_links) - set(done_links)),
link_dict = list(set(link_dict)). -/
def popItem (st : CrawlState) (url : String) : CrawlState :=
  let done1 := st.done_links ++ [url]
  { st with
    done_links := done1,
    todo_links := setDiffList st.todo_links done1,
    link_dict := st.link_dict.dedup }

/-- The whitelist default argument of PageScraper._verify_linkparent. -/
def whitelist : List String := ["classified-compilation", "fedlex", "astra/de"]

/-- PageScraper._verify_linkparent: pass_val starts False and is set True
whenever a whitelist entry occurs as a substring of the link. -/
def verifyLinkparent (link : String) : Bool :=
  whitelist.foldl (fun passVal w => passVal || containsSub link w) false

/-- The pull_url computation in the crawl loop of PageScraper.crawl_page:
prepend domain_url when the current URL contains neither domain_url nor
classified-compilation nor fedlex. -/
def pullUrl (domainUrl currentUrl : String) : String :=
  if !(containsSub currentUrl domainUrl) &&
     !(containsSub currentUrl "classified-compilation") &&
     !(containsSub currentUrl "fedlex") then
    domainUrl ++ currentUrl
  else
    currentUrl

/-- Bookkeeping of _process_page outside link gathering: the requests.get
call on the pulled URL is logged in fetched, and _store_object records a
knowledge-base entry keyed by the same URL. -/
def recordFetch (st : CrawlState) (pu : String) : CrawlState :=
  { st with fetched := st.fetched ++ [pu], kb := st.kb ++ [pu] }

/-- Body of one while-loop iteration of PageScraper.crawl_page (the
failure-free path) for dequeued URL u.  When _verify_linkparent passes,
_process_page fetches pull_url, possibly gathers a batch of links (f returns
none when the page is not plain HTML or _gather_links is not reached, some
batch otherwise) and records a knowledge-base entry; afterwards
_pop_item(current_url) always runs.  When the whitelist check fails, the URL
is neither fetched nor recorded, but _pop_item still runs. -/
def crawlBody (domainUrl : String) (f : String → Option (List String))
    (st : CrawlState) (u : String) : CrawlState :=
  if verifyLinkparent u then
    popItem
      (match f (pullUrl domainUrl u) with
       | none => recordFetch st (pullUrl domainUrl u)
       | some batch => gatherLinks (recordFetch st (pullUrl domainUrl u)) batch)
      u
  else
    popItem st u

/-- One iteration of the while-loop in PageScraper.crawl_page:
current_url = next(iter(todo_links)) is the head of todo_links; an empty
frontier leaves the state unchanged (the loop exits). -/
def crawlIterate (domainUrl : String) (f : String → Option (List String))
    (st : CrawlState) : CrawlState :=
  match st.todo_links with
  | [] => st
  | u :: _ => crawlBody domainUrl f st u

/-- An observable frontier operation: a _gather_links call with a batch of
extracted links, or a _pop_item call. -/
inductive FrontierOp
  | gather (batch : List String)
  | pop (url : String)

/-- Apply one frontier operation. -/
def applyOp (st : CrawlState) : FrontierOp → CrawlState
  | FrontierOp.gather b => gatherLinks st b
  | FrontierOp.pop u => popItem st u

/-- Apply a sequence of frontier operations in order. -/
def applyOps (st : CrawlState) (ops : List FrontierOp) : CrawlState :=
  ops.foldl applyOp st

/-- The crawl loop's dequeue next(iter(self.todo_links)): the head of
todo_links, none when the frontier is exhausted. -/
def frontierNext (st : CrawlState) : Option String :=
  st.todo_links.head?

/-- Fold a sequence of _gather_links batches over a state. -/
def gatherAll (st : CrawlState) (batches : List (List String)) : CrawlState :=
  batches.foldl gatherLinks st

/-- Hexadecimal digit value, as used in percent-escape decoding. -/
def hexVal (c : Char) : Option Nat :=
  if '0' ≤ c ∧ c ≤ '9' then some (c.toNat - '0'.toNat)
  else if 'a' ≤ c ∧ c ≤ 'f' then some (c.toNat - 'a'.toNat + 10)
  else if 'A' ≤ c ∧ c ≤ 'F' then some (c.toNat - 'A'.toNat + 10)
  else none

/-- Model of urllib.parse.unquote at the character level: every %XX escape
(X a hex digit) becomes the character with code point XX; other characters,
and percent signs not followed by two hex digits, pass through unchanged.
Multi-byte UTF-8 escape sequences are simplified to their byte values; the
claims under verification involve no non-ASCII escape. -/
def unquoteChars : List Char → List Char
  | '%' :: c1 :: c2 :: rest =>
    (match hexVal c1, hexVal c2 with
     | some hi, some lo => Char.ofNat (16 * hi + lo) :: unquoteChars rest
     | _, _ => '%' :: unquoteChars (c1 :: c2 :: rest))
  | c :: rest => c :: unquoteChars rest
  | [] => []

/-- Percent-decoding on strings. -/
def unquote (s : String) : String := ⟨unquoteChars s.data⟩

/-- ASCII lower-casing of one character, as str.lower() acts on the ASCII
range relevant to the file-type tables. -/
def charLower (c : Char) : Char :=
  if 65 ≤ c.toNat ∧ c.toNat ≤ 90 then Char.ofNat (c.toNat + 32) else c

/-- Model of str.lower(). -/
def strToLower (s : String) : String := ⟨s.data.map charLower⟩

/-- Model of re.search with pattern: one or more characters other than X,
anchored at the end of the string (the two regexes of _get_filenames, with X
the path or extension separator): the maximal non-empty suffix of s containing
no X, or none when no such suffix exists (s empty or ending in X) — in the
latter case the Python code's indexing of the match object raises
TypeError. -/
def lastRun (sep : Char) (s : String) : Option String :=
  match s.data.reverse.takeWhile (fun c => decide (c ≠ sep)) with
  | [] => none
  | c :: cs => some ⟨(c :: cs).reverse⟩

/-- The fedro_filetypes list of src/src/utils/schemas.py, in source order. -/
def fedro_filetypes : List String :=
  ["pdf", "html", "legal_xml", "xml", "zip", "xlsx", "xls", "docx", "doc",
   "dotx", "pptx", "ppt", "jpg", "png", "dxf", "dwg", "mpg"]

/-- The fedro_filesplit table of src/src/utils/schemas.py. -/
def fedro_filesplit : List (String × String) :=
  [("pdf", "pdf"), ("html", "html"), ("legal_xml", "legal"), ("zip", "zip"),
   ("xls", "excel"), ("xlsx", "excel"), ("doc", "word"), ("docx", "word"),
   ("dotx", "word"), ("pptx", "powerpoint"), ("ppt", "powerpoint"),
   ("jpg", "images"), ("png", "images"), ("dxf", "cad"), ("dwg", "cad"),
   ("xml", "else"), ("mpg", "else"), ("else", "else")]

/-- The for-loop of _get_filenames over defined_filetypes: the first type
occurring as a substring of the raw extension, or else when none does. -/
def scanFiletypes (types : List String) (ext : String) : String :=
  match types with
  | [] => "else"
  | t :: ts => if containsSub ext t then t else scanFiletypes ts ext

/-- PageScraper._get_filenames: percent-decode the URL, take its last path
segment as file_name, the substring of the lower-cased file_name after the
last dot as file_type, then return file_type when it is a known type, else
the first known type occurring as a substring of it, else the fallback else.
Returns none exactly where the Python code raises TypeError (a regex search
with no match indexed with [0]). -/
def getFilenames (types : List String) (url : String) :
    Option (String × String) :=
  match lastRun '/' (unquote url) with
  | none => none
  | some fileName =>
    (match lastRun '.' (strToLower fileName) with
     | none => none
     | some fileType =>
       if fileType ∈ types then some (fileType, fileName)
       else some (scanFiletypes types fileType, fileName))

/-- The classifier as worded by the specification (section 4.2): extract the
last path segment of the percent-decoded URL as fileName and the lower-cased
substring after the last dot as the raw extension; if the raw extension
exactly matches a known kind key return it, otherwise return the first known
key that is a substring of the raw extension, otherwise the fallback kind. -/
def classifySpec (types : List String) (url : String) :
    Option (String × String) :=
  match lastRun '/' (unquote url) with
  | none => none
  | some fileName =>
    (match lastRun '.' (strToLower fileName) with
     | none => none
     | some ext =>
       if ext ∈ types then some (ext, fileName)
       else
         (match types.find? (fun t => containsSub ext t) with
          | some t => some (t, fileName)
          | none => some ("else", fileName)))

/-- Outcome of the per-URL try/except wrapper in the crawl loop. -/
inductive FetchOutcome
  | success
  | swallowedError
  | uncaughtError
deriving DecidableEq, Repr

/-- The try/except wrapper around _process_page inside crawl_page's loop:
current_try starts at 0 in every iteration; a first failing attempt
increments it to 1 and, only when 1 >= retries, sleeps five seconds and
reattempts once outside any try block, so a second failure propagates to
crawl_page's caller; when 1 < retries the first failure is swallowed and no
further attempt is made.  attemptFails k tells whether the k-th _process_page
call for this URL raises; the result pairs the outcome with the number of
attempts made. -/
def crawlRetry (retries : Int) (attemptFails : Nat → Bool) :
    FetchOutcome × Nat :=
  if attemptFails 0 = false then (FetchOutcome.success, 1)
  else if 1 ≥ retries then
    (if attemptFails 1 = true then (FetchOutcome.uncaughtError, 2)
     else (FetchOutcome.success, 2))
  else (FetchOutcome.swallowedError, 1)

/-- The neighbour_list value stored for an escalated page: the Python code
assigns it either a list of links or the final browser URL string
(driver.current_url), so its embedded type is a sum. -/
inductive Neighbours
  | links (urls : List String)
  | finalUri (uri : String)
deriving DecidableEq, Repr

/-- The JavaScript branch of PageScraper._process_html, reduced to the data
_store_object records: esc is the outcome of isolate_legal_xml (error when it
raises, otherwise the returned (new_page, legal_status, current_uri) triple)
and fetchFails tells whether the follow-up requests.get/parse of new_page
raises after isolate_legal_xml already returned.  The result is the recorded
(file_type, neighbour_list) pair: on an isolate_legal_xml error, legal_status
falls back to else while current_uri is still None, giving linked_docs = [];
once the triple was returned, linked_docs is the final URI (a string, not a
list) and file_type is legal_xml only for status in_force, otherwise the
fallback else — the except handler also forces else when the follow-up fetch
fails.  Every case returns normally, so the crawl proceeds. -/
def processHtmlGated (esc : Except Unit (String × String × String))
    (fetchFails : Bool) : String × Neighbours :=
  match esc with
  | Except.error _ => ("else", Neighbours.links [])
  | Except.ok (_, status, uri) =>
    if fetchFails then ("else", Neighbours.finalUri uri)
    else if status = "in_force" then ("legal_xml", Neighbours.finalUri uri)
    else ("else", Neighbours.finalUri uri)

/-- Per-round shift amounts of MD5 (hashlib.md5). -/
def md5S : List Nat :=
  [7, 12, 17, 22, 7, 12, 17, 22, 7, 12, 17, 22, 7, 12, 17, 22,
   5, 9, 14, 20, 5, 9, 14, 20, 5, 9, 14, 20, 5, 9, 14, 20,
   4, 11, 16, 23, 4, 11, 16, 23, 4, 11, 16, 23, 4, 11, 16, 23,
   6, 10, 15, 21, 6, 10, 15, 21, 6, 10, 15, 21, 6, 10, 15, 21]

/-- Per-round additive constants of MD5. -/
def md5K : List Nat :=
  [0xd76aa478, 0xe8c7b756, 0x242070db, 0xc1bdceee,
   0xf57c0faf, 0x4787c62a, 0xa8304613, 0xfd469501,
   0x698098d8, 0x8b44f7af, 0xffff5bb1, 0x895cd7be,
   0x6b901122, 0xfd987193, 0xa679438e, 0x49b40821,
   0xf61e2562, 0xc040b340, 0x265e5a51, 0xe9b6c7aa,
   0xd62f105d, 0x02441453, 0xd8a1e681, 0xe7d3fbc8,
   0x21e1cde6, 0xc33707d6, 0xf4d50d87, 0x455a14ed,
   0xa9e3e905, 0xfcefa3f8, 0x676f02d9, 0x8d2a4c8a,
   0xfffa3942, 0x8771f681, 0x6d9d6122, 0xfde5380c,
   0xa4beea44, 0x4bdecfa9, 0xf6bb4b60, 0xbebfbc70,
   0x289b7ec6, 0xeaa127fa, 0xd4ef3085, 0x04881d05,
   0xd9d4d039, 0xe6db99e5, 0x1fa27cf8, 0xc4ac5665,
   0xf4292244, 0x432aff97, 0xab9423a7, 0xfc93a039,
   0x655b59c3, 0x8f0ccc92, 0xffeff47d, 0x85845dd1,
   0x6fa87e4f, 0xfe2ce6e0, 0xa3014314, 0x4e0811a1,
   0xf7537e82, 0xbd3af235, 0x2ad7d2bb, 0xeb86d391]

/-- Bitwise combination of the low fuel bits of two naturals (LSB first),
used to express 32-bit machine operations over Nat. -/
def bitZip (f : Bool → Bool → Bool) : Nat → Nat → Nat → Nat
  | 0, _, _ => 0
  | fuel + 1, a, b =>
    (cond (f (a % 2 == 1) (b % 2 == 1)) 1 0) + 2 * bitZip f fuel (a / 2) (b / 2)

/-- 32-bit bitwise and. -/
def land32 (a b : Nat) : Nat := bitZip (fun x y => x && y) 32 a b

/-- 32-bit bitwise or. -/
def lor32 (a b : Nat) : Nat := bitZip (fun x y => x || y) 32 a b

/-- 32-bit bitwise xor. -/
def lxor32 (a b : Nat) : Nat := bitZip (fun x y => x != y) 32 a b

/-- 32-bit bitwise complement. -/
def lnot32 (a : Nat) : Nat := (2 ^ 32 - 1) - (a % 2 ^ 32)

/-- 32-bit left rotation. -/
def rotl32 (x n : Nat) : Nat := (x * 2 ^ n + x / 2 ^ (32 - n)) % 2 ^ 32

/-- Round function of MD5 rounds 0-15. -/
def md5F (b c d : Nat) : Nat := lor32 (land32 b c) (land32 (lnot32 b) d)

/-- Round function of MD5 rounds 16-31. -/
def md5G (b c d : Nat) : Nat := lor32 (land32 b d) (land32 c (lnot32 d))

/-- Round function of MD5 rounds 32-47. -/
def md5H (b c d : Nat) : Nat := lxor32 b (lxor32 c d)

/-- Round function of MD5 rounds 48-63. -/
def md5I (b c d : Nat) : Nat := lxor32 c (lor32 b (lnot32 d))

/-- MD5 padding: append the 0x80 marker, zero bytes up to 56 mod 64, then the
original bit length as eight little-endian bytes. -/
def md5Pad (msg : List Nat) : List Nat :=
  msg ++ [128] ++ List.replicate ((119 - msg.length % 64) % 64) 0 ++
    (List.range 8).map (fun i => (8 * msg.length) % 2 ^ 64 / 2 ^ (8 * i) % 256)

/-- Little-endian 32-bit word g of a 64-byte chunk. -/
def chunkWord (chunk : List Nat) (g : Nat) : Nat :=
  chunk.getD (4 * g) 0 + 256 * chunk.getD (4 * g + 1) 0 +
    65536 * chunk.getD (4 * g + 2) 0 + 16777216 * chunk.getD (4 * g + 3) 0

/-- One of the 64 MD5 rounds on the running (A, B, C, D) state. -/
def md5Round (chunk : List Nat) (st : Nat × Nat × Nat × Nat) (i : Nat) :
    Nat × Nat × Nat × Nat :=
  match st with
  | (a, b, c, d) =>
    let fg : Nat × Nat :=
      if i < 16 then (md5F b c d, i)
      else if i < 32 then (md5G b c d, (5 * i + 1) % 16)
      else if i < 48 then (md5H b c d, (3 * i + 5) % 16)
      else (md5I b c d, (7 * i) % 16)
    (d, (b + rotl32 ((a + fg.1 + md5K.getD i 0 + chunkWord chunk fg.2) % 2 ^ 32)
          (md5S.getD i 0)) % 2 ^ 32, b, c)

/-- Process one 64-byte chunk: 64 rounds, then add to the incoming state. -/
def md5Chunk (st : Nat × Nat × Nat × Nat) (chunk : List Nat) :
    Nat × Nat × Nat × Nat :=
  match st, (List.range 64).foldl (md5Round chunk) st with
  | (a0, b0, c0, d0), (a, b, c, d) =>
    ((a0 + a) % 2 ^ 32, (b0 + b) % 2 ^ 32, (c0 + c) % 2 ^ 32, (d0 + d) % 2 ^ 32)

/-- Split into 64-byte chunks (fuel-indexed to keep the recursion
structural; the list length is always enough fuel). -/
def toChunksAux : Nat → List Nat → List (List Nat)
  | 0, _ => []
  | _, [] => []
  | fuel + 1, x :: xs => (x :: xs).take 64 :: toChunksAux fuel ((x :: xs).drop 64)

/-- Split a padded message into its 64-byte chunks. -/
def toChunks (l : List Nat) : List (List Nat) := toChunksAux l.length l

/-- The four 32-bit words of the MD5 digest of a byte sequence. -/
def md5Digest (msg : List Nat) : Nat × Nat × Nat × Nat :=
  (toChunks (md5Pad msg)).foldl md5Chunk
    (0x67452301, 0xefcdab89, 0x98badcfe, 0x10325476)

/-- Lower-case hexadecimal digit. -/
def hexDigitChar (n : Nat) : Char := "0123456789abcdef".data.getD n '0'

/-- Two hex digits of one byte. -/
def byteHex (b : Nat) : List Char := [hexDigitChar (b / 16), hexDigitChar (b % 16)]

/-- Hex rendering of one digest word, little-endian byte order. -/
def wordLEHex (w : Nat) : List Char :=
  byteHex (w % 256) ++ byteHex (w / 256 % 256) ++ byteHex (w / 65536 % 256) ++
    byteHex (w / 16777216 % 256)

/-- hashlib.md5(msg).hexdigest(). -/
def md5Hex (msg : List Nat) : String :=
  match md5Digest msg with
  | (a, b, c, d) => ⟨wordLEHex a ++ wordLEHex b ++ wordLEHex c ++ wordLEHex d⟩

/-- UTF-8 bytes of one character, as str.encode('utf-8') produces. -/
def utf8Bytes (c : Char) : List Nat :=
  if c.toNat < 128 then [c.toNat]
  else if c.toNat < 2048 then
    [192 + c.toNat / 64, 128 + c.toNat % 64]
  else if c.toNat < 65536 then
    [224 + c.toNat / 4096, 128 + c.toNat / 64 % 64, 128 + c.toNat % 64]
  else
    [240 + c.toNat / 262144, 128 + c.toNat / 4096 % 64,
     128 + c.toNat / 64 % 64, 128 + c.toNat % 64]

/-- Model of str.encode('utf-8'). -/
def strUtf8 (s : String) : List Nat :=
  s.data.foldr (fun c acc => utf8Bytes c ++ acc) []

/-- Input of PageScraper._hash_file: a requests Response (with its content
bytes), a BeautifulSoup document (with its text), or a value of any other
type. -/
inductive HashInput
  | response (content : List Nat)
  | soup (text : String)
  | other

/-- PageScraper._hash_file: a Response hashes its content bytes with MD5, a
BeautifulSoup object the UTF-8 encoding of its text, and any other input
yields the sentinel digest marker instead of raising. -/
def hashFile : HashInput → String
  | HashInput.response content => md5Hex content
  | HashInput.soup text => md5Hex (strUtf8 text)
  | HashInput.other => "__error__"

/-- Termination measure for the crawl loop: how many URLs of the finite
universe U are not yet in done_links. -/
def measureD (U : List String) (st : CrawlState) : Nat :=
  (U.toFinset \ st.done_links.toFinset).card

/-- Loop invariant of the crawl loop: every pending URL belongs to the
universe of discoverable links and is not yet done. -/
def crawlInv (U : List String) (st : CrawlState) : Prop :=
  (∀ x ∈ st.todo_links, x ∈ U) ∧ ∀ x ∈ st.todo_links, x ∉ st.done_links

/-- Invariant behind the no-reprocessing guarantee: u is recorded in
done_links, is not pending, and link_dict is non-empty (non-emptiness forces
every later _gather_links call into its deduplicating branch, which subtracts
done_links from todo_links). -/
def doneSafe (u : String) (st : CrawlState) : Prop :=
  u ∈ st.done_links ∧ u ∉ st.todo_links ∧ st.link_dict ≠ []

/-- Checks the first non-empty batch in a sequence of _gather_links calls (the
one that lands in the non-deduplicating assignment branch) for internal
duplicates; true when every batch is empty. -/
def firstBatchOK : List (List String) → Bool
  | [] => true
  | [] :: bs => firstBatchOK bs
  | b :: _ => decide b.Nodup

lemma mem_setDiffList {x : String} {xs ys : List String} :
    x ∈ setDiffList xs ys ↔ x ∈ xs ∧ x ∉ ys := by
  simp [setDiffList, List.mem_filter, List.mem_dedup]

lemma nodup_setDiffList (xs ys : List String) : (setDiffList xs ys).Nodup :=
  (List.nodup_dedup xs).filter _

lemma doneSafe_applyOp {u : String} {st : CrawlState} (h : doneSafe u st)
    (op : FrontierOp) : doneSafe u (applyOp st op) := by
  obtain ⟨hdone, _htodo, hld⟩ := h
  cases op with
  | gather b =>
    simp only [applyOp, gatherLinks, if_neg hld]
    refine ⟨hdone, ?_, ?_⟩
    · intro hmem
      exact (mem_setDiffList.mp hmem).2 hdone
    · simp [List.append_eq_nil, hld]
  | pop v =>
    simp only [applyOp, popItem]
    have hdone1 : u ∈ st.done_links ++ [v] := List.mem_append_left _ hdone
    refine ⟨hdone1, ?_, ?_⟩
    · intro hmem
      exact (mem_setDiffList.mp hmem).2 hdone1
    · simp [List.dedup_eq_nil, hld]

lemma doneSafe_applyOps {u : String} (ops : List FrontierOp) :
    ∀ st : CrawlState, doneSafe u st → doneSafe u (applyOps st ops) := by
  induction ops with
  | nil => intro st h; exact h
  | cons op ops ih =>
    intro st h
    exact ih (applyOp st op) (doneSafe_applyOp h op)

/-- Claim C1 (no reprocessing): once _pop_item(u) has run, the crawl loop's
dequeue next(iter(todo_links)) never yields u again, whatever sequence of
_gather_links batches (u included) and further _pop_item calls follows.  The
hypothesis link_dict ≠ [] holds whenever _pop_item runs inside the crawl loop:
the loop only runs while todo_links is non-empty, and todo_links can only have
become non-empty together with link_dict (predefined links set both;
_gather_links sets both or neither). -/
theorem no_reprocessing (st : CrawlState) (u : String)
    (hld : st.link_dict ≠ []) (ops : List FrontierOp) :
    frontierNext (applyOps (popItem st u) ops) ≠ some u := by
  have h0 : doneSafe u (popItem st u) := by
    have hdone1 : u ∈ st.done_links ++ [u] :=
      List.mem_append_right _ (List.mem_singleton.mpr rfl)
    refine ⟨hdone1, ?_, ?_⟩
    · intro hmem
      exact (mem_setDiffList.mp hmem).2 hdone1
    · simp [popItem, List.dedup_eq_nil, hld]
  have h1 := doneSafe_applyOps ops (popItem st u) h0
  intro hcontra
  cases htodo : (applyOps (popItem st u) ops).todo_links with
  | nil => simp [frontierNext, htodo] at hcontra
  | cons a t =>
    simp only [frontierNext, htodo, List.head?_cons, Option.some.injEq] at hcontra
    exact h1.2.1 (htodo ▸ (hcontra ▸ List.mem_cons_self a t))

theorem no_reprocessing_witness :
    (⟨["a"], ["b"], [], [], []⟩ : CrawlState).link_dict ≠ [] ∧
    frontierNext (applyOps (popItem ⟨["a"], ["b"], [], [], []⟩ "b")
      [FrontierOp.gather ["b"]]) ≠ some "b" :=
  ⟨by decide,
    no_reprocessing ⟨["a"], ["b"], [], [], []⟩ "b" (by decide)
      [FrontierOp.gather ["b"]]⟩

/-- Claim C4 counterexample: starting from the empty frontier, a single
_gather_links call whose batch repeats a URL leaves a duplicate in link_dict,
because the branch taken when link_dict is empty assigns the batch verbatim
with no deduplication. -/
theorem gather_first_batch_dup_cx :
    ¬ (gatherLinks emptyFrontier ["u", "u"]).link_dict.Nodup := by decide

lemma gatherAll_nodup_aux (bs : List (List String)) :
    ∀ st : CrawlState, st.link_dict.Nodup →
      (st.link_dict = [] → firstBatchOK bs = true) →
      (gatherAll st bs).link_dict.Nodup := by
  induction bs with
  | nil => intro st hnd _; exact hnd
  | cons b bs ih =>
    intro st hnd hfb
    have hstep : gatherAll st (b :: bs) = gatherAll (gatherLinks st b) bs := rfl
    rw [hstep]
    by_cases hld : st.link_dict = []
    · cases b with
      | nil =>
        apply ih
        · simp [gatherLinks, hld]
        · intro _
          have := hfb hld
          simpa [firstBatchOK] using this
      | cons x xs =>
        apply ih
        · have := hfb hld
          simp only [firstBatchOK] at this
          simpa [gatherLinks, hld] using of_decide_eq_true this
        · intro hnil
          simp [gatherLinks, hld] at hnil
    · apply ih
      · simp only [gatherLinks, if_neg hld]
        refine List.Nodup.append hnd (nodup_setDiffList _ _) ?_
        intro a ha hmem
        exact (mem_setDiffList.mp hmem).2 ha
      · intro hnil
        simp only [gatherLinks, if_neg hld] at hnil
        simp [List.append_eq_nil, hld] at hnil

/-- Claim C4 amended: starting from the empty frontier, after any sequence of
_gather_links batches whose first non-empty batch is free of internal
duplicates, link_dict holds no duplicate URL — repetitions across batches, and
inside every later batch, are deduplicated. -/
theorem gather_dedup_amended (bs : List (List String))
    (h : firstBatchOK bs = true) :
    (gatherAll emptyFrontier bs).link_dict.Nodup :=
  gatherAll_nodup_aux bs emptyFrontier (by simp [emptyFrontier]) (fun _ => h)

theorem gather_dedup_amended_witness :
    firstBatchOK [["a"], ["a", "b"]] = true ∧
    (gatherAll emptyFrontier [["a"], ["a", "b"]]).link_dict.Nodup :=
  ⟨by decide, gather_dedup_amended [["a"], ["a", "b"]] (by decide)⟩

/-- Claim C9 counterexample: a re-discovered initial URL that matches none of
the whitelist substrings is dequeued again but never fetched.  Starting from
the empty frontier, the seed page's extracted batch is gathered, a later
batch re-discovers the seed, which passes the dedup checks and becomes the
dequeue head; yet the next iteration leaves the fetch log empty and merely
marks the URL done — it is not fetched and processed a second time as the
claim concludes. -/
theorem seed_refetch_cx :
    frontierNext (gatherLinks (gatherLinks emptyFrontier ["p"]) ["https://seed"])
      = some "https://seed" ∧
    (crawlIterate "https://www.astra.admin.ch" (fun _ => none)
      (gatherLinks (gatherLinks emptyFrontier ["p"]) ["https://seed"])).fetched
      = [] ∧
    "https://seed" ∈ (crawlIterate "https://www.astra.admin.ch" (fun _ => none)
      (gatherLinks (gatherLinks emptyFrontier ["p"]) ["https://seed"])).done_links := by
  decide

lemma gather_fetched_eq (st : CrawlState) (b : List String) :
    (gatherLinks st b).fetched = st.fetched := by
  unfold gatherLinks
  split <;> rfl

/-- Claim C9 amended: when crawl_page starts with an empty frontier, the
initial URL is processed but added to neither link_dict nor done_links, so a
later extracted batch containing it passes the dedup checks and the URL
re-enters todo_links; once dequeued again, it is fetched (and hence
processed) a second time exactly when it passes the _verify_linkparent
whitelist — as the default astra/de seed does — while a non-whitelisted
initial URL is popped without being fetched again. -/
theorem seed_untracked_amended (u : String) (seedBatch laterBatch : List String)
    (h1 : u ∉ seedBatch) (h2 : u ∈ laterBatch) :
    u ∉ (gatherLinks emptyFrontier seedBatch).link_dict ∧
    u ∉ (gatherLinks emptyFrontier seedBatch).done_links ∧
    u ∈ (gatherLinks (gatherLinks emptyFrontier seedBatch) laterBatch).todo_links ∧
    (∀ domainUrl (f : String → Option (List String)) (st : CrawlState) rest,
      st.todo_links = u :: rest → verifyLinkparent u = true →
      pullUrl domainUrl u ∈ (crawlIterate domainUrl f st).fetched) ∧
    (∀ domainUrl (f : String → Option (List String)) (st : CrawlState) rest,
      st.todo_links = u :: rest → verifyLinkparent u = false →
      (crawlIterate domainUrl f st).fetched = st.fetched) := by
  have hseed : gatherLinks emptyFrontier seedBatch =
      ⟨seedBatch, seedBatch, [], [], []⟩ := by
    simp [gatherLinks, emptyFrontier]
  refine ⟨by rw [hseed]; exact h1, by rw [hseed]; simp, ?_, ?_, ?_⟩
  · rw [hseed]
    cases seedBatch with
    | nil => simpa [gatherLinks] using h2
    | cons s ss =>
      simp only [gatherLinks, if_neg (List.cons_ne_nil s ss)]
      rw [mem_setDiffList]
      refine ⟨List.mem_append_left _ ?_, by simp⟩
      exact mem_setDiffList.mpr ⟨h2, h1⟩
  · intro domainUrl f st rest hhead hv
    have hbody : crawlIterate domainUrl f st = crawlBody domainUrl f st u := by
      unfold crawlIterate
      rw [hhead]
    rw [hbody]
    unfold crawlBody
    rw [if_pos hv]
    cases hfu : f (pullUrl domainUrl u) with
    | none =>
      show pullUrl domainUrl u ∈ st.fetched ++ [pullUrl domainUrl u]
      exact List.mem_append_right _ (List.mem_singleton.mpr rfl)
    | some b =>
      have hfe : (popItem (gatherLinks (recordFetch st (pullUrl domainUrl u)) b)
          u).fetched = st.fetched ++ [pullUrl domainUrl u] := by
        show (gatherLinks (recordFetch st (pullUrl domainUrl u)) b).fetched = _
        rw [gather_fetched_eq]
        rfl
      rw [hfe]
      exact List.mem_append_right _ (List.mem_singleton.mpr rfl)
  · intro domainUrl f st rest hhead hv
    have hbody : crawlIterate domainUrl f st = crawlBody domainUrl f st u := by
      unfold crawlIterate
      rw [hhead]
    rw [hbody]
    unfold crawlBody
    rw [if_neg (by simp [hv])]
    rfl

theorem seed_untracked_amended_witness :
    ("https://www.astra.admin.ch/astra/de/home.html"
        ∉ (["https://x/a"] : List String)) ∧
    "https://www.astra.admin.ch/astra/de/home.html" ∈
      (gatherLinks (gatherLinks emptyFrontier ["https://x/a"])
        ["https://www.astra.admin.ch/astra/de/home.html"]).todo_links ∧
    pullUrl "https://www.astra.admin.ch"
        "https://www.astra.admin.ch/astra/de/home.html" ∈
      (crawlIterate "https://www.astra.admin.ch" (fun _ => none)
        (⟨["https://www.astra.admin.ch/astra/de/home.html"],
          ["https://www.astra.admin.ch/astra/de/home.html"], [], [], []⟩ :
          CrawlState)).fetched := by
  have h := seed_untracked_amended
    "https://www.astra.admin.ch/astra/de/home.html"
    ["https://x/a"]
    ["https://www.astra.admin.ch/astra/de/home.html"]
    (by decide) (by decide)
  exact ⟨by decide, h.2.2.1,
    h.2.2.2.1 "https://www.astra.admin.ch" (fun _ => none)
      ⟨["https://www.astra.admin.ch/astra/de/home.html"],
        ["https://www.astra.admin.ch/astra/de/home.html"], [], [], []⟩ []
      rfl (by decide)⟩

lemma verifyLinkparent_eq_false {u : String}
    (h1 : containsSub u "classified-compilation" = false)
    (h2 : containsSub u "fedlex" = false)
    (h3 : containsSub u "astra/de" = false) :
    verifyLinkparent u = false := by
  simp [verifyLinkparent, whitelist, h1, h2, h3]

/-- Claim C10 (implicit, whitelist gate): when the dequeued head of todo_links
contains none of the substrings classified-compilation, fedlex and astra/de,
the iteration neither fetches it nor records a knowledge-base entry, yet
_pop_item still appends it to done_links (whose length grows by one, advancing
the len(done_links) % 400 checkpoint cadence) and removes it from
todo_links. -/
theorem whitelist_gate (domainUrl : String) (f : String → Option (List String))
    (st : CrawlState) (u : String) (rest : List String)
    (hhead : st.todo_links = u :: rest)
    (h1 : containsSub u "classified-compilation" = false)
    (h2 : containsSub u "fedlex" = false)
    (h3 : containsSub u "astra/de" = false) :
    (crawlIterate domainUrl f st).fetched = st.fetched ∧
    (crawlIterate domainUrl f st).kb = st.kb ∧
    u ∈ (crawlIterate domainUrl f st).done_links ∧
    u ∉ (crawlIterate domainUrl f st).todo_links ∧
    (crawlIterate domainUrl f st).done_links.length =
      st.done_links.length + 1 := by
  have hv : verifyLinkparent u = false := verifyLinkparent_eq_false h1 h2 h3
  have hiter : crawlIterate domainUrl f st = popItem st u := by
    unfold crawlIterate
    rw [hhead]
    show crawlBody domainUrl f st u = popItem st u
    unfold crawlBody
    rw [if_neg (by simp [hv])]
  rw [hiter]
  have hdone1 : u ∈ st.done_links ++ [u] :=
    List.mem_append_right _ (List.mem_singleton.mpr rfl)
  refine ⟨rfl, rfl, hdone1, ?_, by simp [popItem]⟩
  intro hmem
  exact (mem_setDiffList.mp hmem).2 hdone1

theorem whitelist_gate_witness :
    (⟨["x"], ["x"], [], [], []⟩ : CrawlState).todo_links = "x" :: [] ∧
    ((crawlIterate "d" (fun _ => none) ⟨["x"], ["x"], [], [], []⟩).fetched =
        (⟨["x"], ["x"], [], [], []⟩ : CrawlState).fetched ∧
      (crawlIterate "d" (fun _ => none) ⟨["x"], ["x"], [], [], []⟩).kb =
        (⟨["x"], ["x"], [], [], []⟩ : CrawlState).kb ∧
      "x" ∈ (crawlIterate "d" (fun _ => none)
        ⟨["x"], ["x"], [], [], []⟩).done_links ∧
      "x" ∉ (crawlIterate "d" (fun _ => none)
        ⟨["x"], ["x"], [], [], []⟩).todo_links ∧
      (crawlIterate "d" (fun _ => none)
        ⟨["x"], ["x"], [], [], []⟩).done_links.length =
        (⟨["x"], ["x"], [], [], []⟩ : CrawlState).done_links.length + 1) :=
  ⟨rfl, whitelist_gate "d" (fun _ => none) ⟨["x"], ["x"], [], [], []⟩ "x" []
    rfl (by decide) (by decide) (by decide)⟩

lemma gather_done_eq (st : CrawlState) (b : List String) :
    (gatherLinks st b).done_links = st.done_links := by
  unfold gatherLinks
  split <;> rfl

lemma gather_todo_subset {x : String} {st : CrawlState} {b : List String}
    (h : x ∈ (gatherLinks st b).todo_links) : x ∈ b ∨ x ∈ st.todo_links := by
  unfold gatherLinks at h
  split at h
  · exact Or.inl h
  · rcases List.mem_append.mp (mem_setDiffList.mp h).1 with h1 | h2
    · exact Or.inl (mem_setDiffList.mp h1).1
    · exact Or.inr h2

lemma crawlIterate_shape (domainUrl : String) (f : String → Option (List String))
    (st : CrawlState) (u : String) (rest : List String)
    (heq : st.todo_links = u :: rest) :
    ∃ stX : CrawlState, crawlIterate domainUrl f st = popItem stX u ∧
      stX.done_links = st.done_links ∧
      (∀ x, x ∈ stX.todo_links → x ∈ st.todo_links ∨
        ∃ b, f (pullUrl domainUrl u) = some b ∧ x ∈ b) := by
  have hbody : crawlIterate domainUrl f st = crawlBody domainUrl f st u := by
    unfold crawlIterate
    rw [heq]
  rw [hbody]
  unfold crawlBody
  by_cases hv : verifyLinkparent u = true
  · rw [if_pos hv]
    cases hfu : f (pullUrl domainUrl u) with
    | none => exact ⟨_, rfl, rfl, fun x hx => Or.inl hx⟩
    | some b =>
      refine ⟨_, rfl, gather_done_eq _ _, fun x hx => ?_⟩
      rcases gather_todo_subset hx with h1 | h2
      · exact Or.inr ⟨b, rfl, h1⟩
      · exact Or.inl h2
  · rw [if_neg hv]
    exact ⟨st, rfl, rfl, fun x hx => Or.inl hx⟩

lemma crawlInv_popItem {U : List String} {stX : CrawlState} {u : String}
    (hTodoSub : ∀ x ∈ stX.todo_links, x ∈ U) :
    crawlInv U (popItem stX u) := by
  constructor
  · intro x hx
    exact hTodoSub x (mem_setDiffList.mp hx).1
  · intro x hx
    exact (mem_setDiffList.mp hx).2

lemma measureD_popItem_lt {U : List String} {st : CrawlState} {u : String}
    (hU : u ∈ U) (hdone : u ∉ st.done_links) (stX : CrawlState)
    (hX : stX.done_links = st.done_links) :
    measureD U (popItem stX u) < measureD U st := by
  have hdeq : (popItem stX u).done_links.toFinset =
      insert u st.done_links.toFinset := by
    show (stX.done_links ++ [u]).toFinset = _
    ext x
    simp [hX, or_comm]
  unfold measureD
  rw [hdeq]
  have hsub : U.toFinset \ insert u st.done_links.toFinset ⊆
      U.toFinset \ st.done_links.toFinset :=
    Finset.sdiff_subset_sdiff (le_refl _) (Finset.subset_insert _ _)
  have hu : u ∈ U.toFinset \ st.done_links.toFinset :=
    Finset.mem_sdiff.mpr ⟨List.mem_toFinset.mpr hU,
      fun h => hdone (List.mem_toFinset.mp h)⟩
  have hnot : u ∉ U.toFinset \ insert u st.done_links.toFinset := by simp
  exact Finset.card_lt_card
    ((Finset.ssubset_iff_of_subset hsub).mpr ⟨u, hu, hnot⟩)

lemma crawlIterate_inv_and_lt (domainUrl : String)
    (f : String → Option (List String)) (U : List String) (st : CrawlState)
    (hf : ∀ v b, f v = some b → ∀ x ∈ b, x ∈ U)
    (hInv : crawlInv U st) (hne : st.todo_links ≠ []) :
    crawlInv U (crawlIterate domainUrl f st) ∧
      measureD U (crawlIterate domainUrl f st) < measureD U st := by
  obtain ⟨u, rest, heq⟩ : ∃ u rest, st.todo_links = u :: rest := by
    cases h : st.todo_links with
    | nil => exact absurd h hne
    | cons a t => exact ⟨a, t, rfl⟩
  obtain ⟨stX, hEq, hDone, hTodo⟩ := crawlIterate_shape domainUrl f st u rest heq
  have hu_mem : u ∈ st.todo_links := heq ▸ List.mem_cons_self u rest
  have hTodoSub : ∀ x ∈ stX.todo_links, x ∈ U := by
    intro x hx
    rcases hTodo x hx with h1 | ⟨b, hb, hxb⟩
    · exact hInv.1 x h1
    · exact hf _ b hb x hxb
  rw [hEq]
  exact ⟨crawlInv_popItem hTodoSub,
    measureD_popItem_lt (hInv.1 u hu_mem) (hInv.2 u hu_mem) stX hDone⟩

lemma exists_iterate_nil (domainUrl : String)
    (f : String → Option (List String)) (U : List String)
    (hf : ∀ v b, f v = some b → ∀ x ∈ b, x ∈ U) :
    ∀ m (st : CrawlState), crawlInv U st → measureD U st ≤ m →
      ∃ n, ((crawlIterate domainUrl f)^[n] st).todo_links = [] := by
  intro m
  induction m with
  | zero =>
    intro st hInv hle
    by_cases hne : st.todo_links = []
    · exact ⟨0, hne⟩
    · exfalso
      have := (crawlIterate_inv_and_lt domainUrl f U st hf hInv hne).2
      omega
  | succ m ih =>
    intro st hInv hle
    by_cases hne : st.todo_links = []
    · exact ⟨0, hne⟩
    · obtain ⟨hInv1, hlt⟩ := crawlIterate_inv_and_lt domainUrl f U st hf hInv hne
      obtain ⟨n, hn⟩ := ih (crawlIterate domainUrl f st) hInv1 (by omega)
      exact ⟨n + 1, by rw [Function.iterate_succ_apply]; exact hn⟩

/-- Claim C7 (frontier exhaustion): for any finite universe U containing the
pending links and every link any processed page can contribute, the crawl loop
of crawl_page reaches an empty todo_links after finitely many iterations: each
iteration's _pop_item removes the dequeued URL from pending and records it
done, done-membership blocks re-insertion, and the number of universe URLs not
yet done strictly shrinks every iteration after the first. -/
theorem frontier_exhaustion (domainUrl : String)
    (f : String → Option (List String)) (U : List String) (st : CrawlState)
    (htodo : ∀ x ∈ st.todo_links, x ∈ U)
    (hf : ∀ v b, f v = some b → ∀ x ∈ b, x ∈ U) :
    ∃ n, ((crawlIterate domainUrl f)^[n] st).todo_links = [] := by
  by_cases hne : st.todo_links = []
  · exact ⟨0, hne⟩
  · obtain ⟨u, rest, heq⟩ : ∃ u rest, st.todo_links = u :: rest := by
      cases h : st.todo_links with
      | nil => exact absurd h hne
      | cons a t => exact ⟨a, t, rfl⟩
    obtain ⟨stX, hEq, hDone, hTodo⟩ :=
      crawlIterate_shape domainUrl f st u rest heq
    have hTodoSub : ∀ x ∈ stX.todo_links, x ∈ U := by
      intro x hx
      rcases hTodo x hx with h1 | ⟨b, hb, hxb⟩
      · exact htodo x h1
      · exact hf _ b hb x hxb
    have hInv1 : crawlInv U (crawlIterate domainUrl f st) := by
      rw [hEq]
      exact crawlInv_popItem hTodoSub
    obtain ⟨n, hn⟩ := exists_iterate_nil domainUrl f U hf
      (measureD U (crawlIterate domainUrl f st))
      (crawlIterate domainUrl f st) hInv1 (le_refl _)
    exact ⟨n + 1, by rw [Function.iterate_succ_apply]; exact hn⟩

theorem frontier_exhaustion_witness :
    (∀ x ∈ (⟨["a"], ["a"], [], [], []⟩ : CrawlState).todo_links,
      x ∈ (["a"] : List String)) ∧
    ∃ n, ((crawlIterate "d" (fun _ => none))^[n]
      (⟨["a"], ["a"], [], [], []⟩ : CrawlState)).todo_links = [] :=
  ⟨by decide,
    frontier_exhaustion "d" (fun _ => none) ["a"] ⟨["a"], ["a"], [], [], []⟩
      (by decide) (fun _ _ h => nomatch h)⟩

lemma scanFiletypes_eq_find (types : List String) (ext : String) :
    scanFiletypes types ext =
      (types.find? (fun t => containsSub ext t)).getD "else" := by
  induction types with
  | nil => rfl
  | cons t ts ih =>
    cases hb : containsSub ext t with
    | true => simp [scanFiletypes, List.find?_cons, hb]
    | false => simp [scanFiletypes, List.find?_cons, hb, ih]

/-- Claim C5 (classifier algorithm): _get_filenames takes the last path
segment of the percent-decoded URL as file name and the lower-cased substring
after the last dot as raw extension; an exact table match is returned as is,
otherwise the first table key occurring as a substring of the raw extension,
otherwise the fallback kind — stated as extensional agreement with the
classifier worded from the specification; and on the query-suffixed example
URL the kind is xlsx, which the storage table files under excel. -/
theorem classifier_algorithm :
    (∀ url, getFilenames fedro_filetypes url = classifySpec fedro_filetypes url) ∧
    getFilenames fedro_filetypes "https://x/report.xlsx?v=2" =
      some ("xlsx", "report.xlsx?v=2") ∧
    List.lookup "xlsx" fedro_filesplit = some "excel" := by
  refine ⟨?_, by decide, by decide⟩
  intro url
  unfold getFilenames classifySpec
  cases lastRun '/' (unquote url) with
  | none => rfl
  | some fn =>
    dsimp only
    cases lastRun '.' (strToLower fn) with
    | none => rfl
    | some ext =>
      dsimp only
      by_cases h : ext ∈ fedro_filetypes
      · rw [if_pos h, if_pos h]
      · rw [if_neg h, if_neg h, scanFiletypes_eq_find]
        cases hf : List.find? (fun t => containsSub ext t) fedro_filetypes with
        | none => simp
        | some t => simp

/-- Claim C6 counterexample: on a URL whose decoded form ends with a slash,
the file-name regex of _get_filenames has no match, so the Python code
indexes None and raises TypeError instead of returning a kind (none in this
embedding). -/
theorem classification_raises_cx :
    getFilenames fedro_filetypes "https://x/" = none := rfl

lemma ofNat_lower_range_ne_dot : ∀ n, 97 ≤ n → n ≤ 122 → Char.ofNat n ≠ '.' := by
  intro n h1 h2
  interval_cases n <;> decide

lemma charLower_ne_dot {c : Char} (h : c ≠ '.') : charLower c ≠ '.' := by
  unfold charLower
  split
  · rename_i hcond
    exact ofNat_lower_range_ne_dot _ (by omega) (by omega)
  · exact h

lemma lastRun_some_of {s : String} {c : Char} {sep : Char}
    (hc : s.data.getLast? = some c) (hne : c ≠ sep) :
    ∃ t : String, lastRun sep s = some t ∧ t.data.getLast? = some c := by
  have hrev : s.data.reverse.head? = some c := by
    rw [List.head?_reverse, hc]
  cases hd : s.data.reverse with
  | nil => rw [hd] at hrev; cases hrev
  | cons c0 cs =>
    rw [hd] at hrev
    have hc0 : c0 = c := by simpa using hrev
    subst hc0
    have htw : List.takeWhile (fun x => decide (x ≠ sep)) (c0 :: cs)
        = c0 :: List.takeWhile (fun x => decide (x ≠ sep)) cs :=
      List.takeWhile_cons_of_pos (by simpa using hne)
    refine ⟨⟨(c0 :: List.takeWhile (fun x => decide (x ≠ sep)) cs).reverse⟩,
      ?_, ?_⟩
    · unfold lastRun
      rw [hd, htw]
    · show ((c0 :: List.takeWhile (fun x => decide (x ≠ sep)) cs).reverse).getLast?
        = some c0
      have hrr := List.head?_reverse
        ((c0 :: List.takeWhile (fun x => decide (x ≠ sep)) cs).reverse)
      rw [List.reverse_reverse] at hrr
      rw [← hrr]
      rfl

/-- Claim C6 amended: _get_filenames returns a kind (worst case the fallback)
for every URL whose percent-decoded form is non-empty and ends neither in a
slash nor in a dot; for a decoded URL ending in a slash or a dot the
underlying regex search has no match and the Python code raises TypeError
(counterexample above), so classification is not total and can fail the
run. -/
theorem classification_total_amended (url : String)
    (h1 : (unquote url).data ≠ [])
    (h2 : (unquote url).data.getLast? ≠ some '/')
    (h3 : (unquote url).data.getLast? ≠ some '.') :
    ∃ kind fileName,
      getFilenames fedro_filetypes url = some (kind, fileName) := by
  obtain ⟨c, hc⟩ : ∃ c, (unquote url).data.getLast? = some c := by
    cases hgl : (unquote url).data.getLast? with
    | none =>
      exact absurd (List.getLast?_eq_none_iff.mp hgl) h1
    | some c => exact ⟨c, rfl⟩
  have hcs : c ≠ '/' := fun he => h2 (he ▸ hc)
  have hcd : c ≠ '.' := fun he => h3 (he ▸ hc)
  obtain ⟨fn, hfn, hfnl⟩ := lastRun_some_of hc hcs
  have hfl : (strToLower fn).data.getLast? = some (charLower c) := by
    show (fn.data.map charLower).getLast? = _
    rw [List.getLast?_map, hfnl]
    rfl
  obtain ⟨ext, hext, -⟩ := lastRun_some_of hfl (charLower_ne_dot hcd)
  unfold getFilenames
  rw [hfn]
  dsimp only
  rw [hext]
  dsimp only
  by_cases hm : ext ∈ fedro_filetypes
  · exact ⟨ext, fn, by rw [if_pos hm]⟩
  · exact ⟨scanFiletypes fedro_filetypes ext, fn, by rw [if_neg hm]⟩

theorem classification_total_amended_witness :
    (unquote "https://x/a.bin").data ≠ [] ∧
    ∃ kind fileName,
      getFilenames fedro_filetypes "https://x/a.bin" = some (kind, fileName) :=
  ⟨by decide,
    classification_total_amended "https://x/a.bin" (by decide) (by decide)
      (by decide)⟩

/-- Claim C2 evaluated at its failing input: with retry budget retries = 2
and a URL whose fetch raises on every attempt, the code makes a single
attempt, swallows the exception, never retries and propagates nothing —
against the claim (and the docstring, which calls retries the number of
retries) that the fetch is reattempted up to the budget and the final failure
propagates once the budget is exhausted.  Only for the default retries = 1
does the claimed retry-once-then-propagate behaviour occur, as the second
conjunct shows. -/
theorem retry_budget_code_bug :
    crawlRetry 2 (fun _ => true) = (FetchOutcome.swallowedError, 1) ∧
    crawlRetry 1 (fun _ => true) = (FetchOutcome.uncaughtError, 2) := by
  exact ⟨by decide, by decide⟩

/-- Claim C3 counterexample: when the rendering collaborator reports
not_in_force, the recorded entry does get the fallback kind, but its
neighbour_list is the final browser URL string, not the empty list the claim
requires. -/
theorem escalation_notinforce_links_cx :
    (processHtmlGated (Except.ok ("https://www.fedlex.admin.ch/eli/cc/1/1/de",
        "not_in_force", "https://www.fedlex.admin.ch/eli/cc/1/1/de"))
      false).1 = "else" ∧
    (processHtmlGated (Except.ok ("https://www.fedlex.admin.ch/eli/cc/1/1/de",
        "not_in_force", "https://www.fedlex.admin.ch/eli/cc/1/1/de"))
      false).2 ≠ Neighbours.links [] := by
  exact ⟨rfl, by decide⟩

/-- Claim C3 amended: if escalation raises inside isolate_legal_xml, the
entry records the fallback kind with an empty link list; when the
collaborator returns a status other than in_force, the kind is the fallback
but the outbound-link field records the final browser URL instead of an
empty list (whether or not the follow-up fetch of the resolved page fails);
both paths return normally, so the crawl proceeds to the next URL without
aborting. -/
theorem escalation_degradation_amended :
    (∀ ff : Bool, processHtmlGated (Except.error ()) ff
        = ("else", Neighbours.links [])) ∧
    (∀ p status uri, status ≠ "in_force" → ∀ ff : Bool,
        processHtmlGated (Except.ok (p, status, uri)) ff
          = ("else", Neighbours.finalUri uri)) := by
  constructor
  · intro ff
    rfl
  · intro p status uri hs ff
    cases ff with
    | true => rfl
    | false => simp [processHtmlGated, hs]

theorem escalation_degradation_amended_witness :
    processHtmlGated (Except.ok ("p", "not_in_force", "u")) true
      = ("else", Neighbours.finalUri "u") :=
  escalation_degradation_amended.2 "p" "not_in_force" "u" (by decide) true

/-- Claim C8 (fingerprint totality and determinism): _hash_file is a pure
function of its input — identical content yields the identical digest on
every call (definitional in this embedding, stated as stability over all
Response contents) — and an input that is neither a Response nor a parsed
document yields the sentinel digest marker rather than raising; the MD5
embedding is validated against the reference digests of the empty byte
string and of the bytes of abc. -/
theorem fingerprint_total_det :
    (∀ content : List Nat,
      hashFile (HashInput.response content)
        = hashFile (HashInput.response content)) ∧
    hashFile HashInput.other = "__error__" ∧
    hashFile (HashInput.response []) = "d41d8cd98f00b204e9800998ecf8427e" ∧
    hashFile (HashInput.soup "abc") = "900150983cd24fb0d6963f7d28e17f72" :=
  ⟨fun _ => rfl, rfl, by decide, by decide⟩

end KgCrawler
